import Mathlib

/-!
Verification of the tweet-cache fallback store of the news-limitless-concept
proxy server (`server.js`, file-backed variant).

The JavaScript source is shallowly embedded as follows:
* a tweet object becomes the structure `Tweet`; the `isMockData` field, absent
  on real tweets (hence falsy), is a `Bool` defaulting to `false`;
* `created_at` ISO-8601 timestamp strings are represented by natural numbers
  (milliseconds since the epoch); `new Date(s)` parsing is monotone, so the
  comparator `new Date(b.created_at) - new Date(a.created_at)` orders tweets
  exactly as the numeric field does;
* the insertion-ordered JavaScript `Map` used for deduplication becomes a list
  with `mapSet` (`Map.prototype.set`: overwrite in place if the key is present,
  append otherwise); `Array.from(map.values())` is the list itself;
* `Array.prototype.sort` (a stable comparison sort) becomes Mathlib's stable
  `List.insertionSort` with the relation `createdGe`;
* file and network I/O outcomes are passed in explicitly: `loadStoredTweets`
  takes the outcome of `fs.readFile` + `JSON.parse`, `saveStoredTweets` takes
  whether `fs.writeFile` fails, the route handler takes the outcome of the
  upstream `fetch`, and `Math.random`-driven shuffling is an arbitrary
  permutation supplied by the environment.
-/

namespace NewsLimitless

/-- A user record from the upstream `includes.users` list (also used for the
denormalized `author` field injected by the handler). -/
structure User where
  id : String := ""
  username : String
  name : String
  profile_image_url : Option String := none
  deriving Repr, DecidableEq

/-- The `public_metrics` engagement counters carried on every tweet. -/
structure PublicMetrics where
  retweet_count : Nat
  reply_count : Nat
  like_count : Nat
  quote_count : Nat
  deriving Repr, DecidableEq

/-- One social-media post, as stored in `tweets_database.json` and as shipped
in API responses.  `isMockData := false` models the field being absent (falsy)
on genuine tweets. -/
structure Tweet where
  id : String
  text : String
  created_at : Nat
  author_id : String
  isMockData : Bool := false
  author : Option User := none
  public_metrics : PublicMetrics
  deriving Repr, DecidableEq

instance : Inhabited Tweet :=
  ⟨{ id := "", text := "", created_at := 0, author_id := "",
     public_metrics := ⟨0, 0, 0, 0⟩ }⟩

/-- `MAX_STORED_TWEETS = 100` (server.js line 17): "Keep last 100 tweets". -/
def MAX_STORED_TWEETS : Nat := 100

/-- JavaScript `String.prototype.startsWith`, written over the character
list (rather than through `String.substrEq`, whose well-founded loop does
not evaluate inside the kernel); on the ASCII ids compared here the two
agree character for character. -/
def strStartsWith (s p : String) : Bool := p.toList.isPrefixOf s.toList

/-- The filter of server.js lines 38-42: a tweet is kept ("real") when it is
not flagged `isMockData` and its id has neither the prefix `mock_` nor the
prefix `client_mock_`. -/
def isRealTweet (t : Tweet) : Bool :=
  !t.isMockData && !(strStartsWith t.id ("mock_")) && !(strStartsWith t.id ("client_mock_"))

/-- `Map.prototype.set` on an insertion-ordered map represented as a list:
if some entry already has the key `t.id` its value is overwritten in place,
otherwise the new entry is appended at the end. -/
def mapSet (m : List Tweet) (t : Tweet) : List Tweet :=
  if m.any (fun u => u.id = t.id) then m.map (fun u => if u.id = t.id then t else u)
  else m ++ [t]

/-- Repeated `Map.prototype.set`, one call per element of `ts` in order
(the two `forEach` loops of server.js lines 51-58). -/
def mapSetAll (m : List Tweet) (ts : List Tweet) : List Tweet :=
  ts.foldl mapSet m

/-- The ordering used by the sort at server.js line 62:
`(a, b) => new Date(b.created_at) - new Date(a.created_at)` puts `a` before
`b` exactly when `b.created_at ≤ a.created_at` (descending by timestamp;
ties keep their input order because the JavaScript sort is stable). -/
def createdGe (a b : Tweet) : Prop := b.created_at ≤ a.created_at

instance : DecidableRel createdGe := fun a b => Nat.decLe b.created_at a.created_at

instance : IsTotal Tweet createdGe := ⟨fun a b => Nat.le_total b.created_at a.created_at⟩

instance : IsTrans Tweet createdGe := ⟨fun _ _ _ hab hbc => le_trans hbc hab⟩

/-- The in-memory merge computed inside `saveStoredTweets` (server.js lines
37-63): filter out mock tweets, build an insertion-ordered map from the
existing tweets then the new ones (duplicates by `id` overwritten), take the
values, sort by `created_at` descending with a stable sort, and truncate to
`MAX_STORED_TWEETS`. -/
def mergeStoredTweets (existingTweets tweets : List Tweet) : List Tweet :=
  let realTweets := tweets.filter isRealTweet
  let tweetMap := mapSetAll (mapSetAll [] existingTweets) realTweets
  (List.insertionSort createdGe tweetMap).take MAX_STORED_TWEETS

/-- Observable outcome of one `saveStoredTweets` call: the value returned to
the caller, the backing-file contents when the write succeeded (`none` when
`fs.writeFile` rejected), and whether `console.error` was invoked. -/
structure SaveResult where
  returned : List Tweet
  fileAfter : Option (List Tweet)
  loggedError : Bool
  deriving Repr, DecidableEq

/-- `saveStoredTweets` (server.js lines 35-77).  The whole body sits in a
`try`; when `fs.writeFile` rejects, the `catch` block logs the error and
returns `[]`, so the computed merge is discarded and nothing is thrown.
When the write succeeds the merged list is both persisted and returned. -/
def saveStoredTweets (existingTweets tweets : List Tweet) (writeFails : Bool) : SaveResult :=
  let allTweets := mergeStoredTweets existingTweets tweets
  if writeFails then { returned := [], fileAfter := none, loggedError := true }
  else { returned := allTweets, fileAfter := some allTweets, loggedError := false }

/-- Outcome of `fs.readFile` + `JSON.parse` on the backing file, as seen by
`loadStoredTweets`: a successful parse (whose `tweets` field may be absent,
modelled by `Option`), a missing file (`ENOENT`), another I/O error, or a
JSON syntax error. -/
inductive ReadResult where
  | ok (parsedTweets : Option (List Tweet))
  | enoent
  | ioError
  | parseError
  deriving Repr, DecidableEq

/-- Observable outcome of one `loadStoredTweets` call: the returned list and
whether `console.error` was invoked.  The function is total: no failure is
propagated to the caller. -/
structure LoadResult where
  tweets : List Tweet
  loggedError : Bool
  deriving Repr, DecidableEq

/-- `loadStoredTweets` (server.js lines 20-32): return `parsed.tweets || []`
on success; on any failure return `[]`, logging the error unless its code is
`ENOENT` (missing file). -/
def loadStoredTweets : ReadResult → LoadResult
  | .ok o => { tweets := o.getD [], loggedError := false }
  | .enoent => { tweets := [], loggedError := false }
  | .ioError => { tweets := [], loggedError := true }
  | .parseError => { tweets := [], loggedError := true }

/-- `getRandomStoredTweets` (server.js lines 80-90).  `storedTweets` is the
loaded store; `shuffled` is the result of the random-comparator shuffle
`[...storedTweets].sort(() => Math.random() - 0.5)` — a comparison sort only
reorders, so the environment supplies `shuffled` as a permutation of the
store.  Returns `[]` on an empty store, otherwise the first
`min count storeSize` shuffled elements. -/
def getRandomStoredTweets (storedTweets shuffled : List Tweet) (count : Nat) : List Tweet :=
  if storedTweets.length = 0 then []
  else shuffled.take (min count storedTweets.length)

/-- `getMockTweets` (server.js lines 319-361): the fixed placeholder set,
"clearly marked as mock" via `isMockData: true` and `mock_` ids.  `now` is
`Date.now()` in milliseconds; the later entries sit 1 h and 2 h in the past
(truncated subtraction is harmless for any realistic clock value). -/
def getMockTweets (now : Nat) : List Tweet :=
  [ { id := "mock_1", isMockData := true,
      text := "Bitcoin is showing strong momentum today! $BTC breaking through resistance levels ðŸš€",
      created_at := now, author_id := "mock_user_1",
      public_metrics := { retweet_count := 45, reply_count := 12, like_count := 234, quote_count := 5 } },
    { id := "mock_2", isMockData := true,
      text := "Institutional adoption of #Bitcoin continues to grow. Major banks now offering BTC custody services.",
      created_at := now - 3600000, author_id := "mock_user_2",
      public_metrics := { retweet_count := 89, reply_count := 23, like_count := 456, quote_count := 12 } },
    { id := "mock_3", isMockData := true,
      text := "BTC price analysis: Key support at $107k holding strong. Next target $110k if we break above current resistance.",
      created_at := now - 7200000, author_id := "mock_user_3",
      public_metrics := { retweet_count := 67, reply_count := 34, like_count := 789, quote_count := 8 } } ]

/-- The five seed tweets built inside `initializeSampleTweets` (server.js
lines 378-464).  Their ids start with `init_` followed by `Date.now()`; they
carry no `isMockData` flag. -/
def sampleTweets (now : Nat) : List Tweet :=
  [ { id := "init_" ++ toString now ++ "_1",
      text := "Breaking: Bitcoin ETF sees record $500M inflow today as institutional interest surges. $BTC holding strong above $107k support level. The momentum continues to build.",
      created_at := now, author_id := "sample_user_1",
      author := some { username := "cryptoanalyst", name := "Crypto Analyst" },
      public_metrics := { retweet_count := 156, reply_count := 42, like_count := 892, quote_count := 23 } },
    { id := "init_" ++ toString now ++ "_2",
      text := "MicroStrategy announces additional $250M Bitcoin purchase. Now holding over 189,000 BTC. Michael Saylor remains bullish on the digital gold thesis.",
      created_at := now - 3600000, author_id := "sample_user_2",
      author := some { username := "btcnewswire", name := "BTC News Wire" },
      public_metrics := { retweet_count := 234, reply_count := 67, like_count := 1453, quote_count := 45 } },
    { id := "init_" ++ toString now ++ "_3",
      text := "Lightning Network capacity hits new ATH with 6,000+ BTC locked. Payment channels growing 15% month-over-month. #Bitcoin adoption accelerating.",
      created_at := now - 7200000, author_id := "sample_user_3",
      author := some { username := "lightningdev", name := "Lightning Network Stats" },
      public_metrics := { retweet_count := 89, reply_count := 23, like_count := 567, quote_count := 12 } },
    { id := "init_" ++ toString now ++ "_4",
      text := "Bitcoin mining difficulty adjusts +3.2% as hash rate reaches new all-time high. Network security stronger than ever. $BTC fundamentals remain robust.",
      created_at := now - 10800000, author_id := "sample_user_4",
      author := some { username := "miningpoolstats", name := "Mining Pool Statistics" },
      public_metrics := { retweet_count := 78, reply_count := 19, like_count := 445, quote_count := 8 } },
    { id := "init_" ++ toString now ++ "_5",
      text := "El Salvador reports $400M profit on Bitcoin holdings. President Bukele says the country will continue its BTC accumulation strategy.",
      created_at := now - 14400000, author_id := "sample_user_5",
      author := some { username := "globalbtc", name := "Global Bitcoin News" },
      public_metrics := { retweet_count := 345, reply_count := 89, like_count := 2134, quote_count := 67 } } ]

/-- `initializeSampleTweets` (server.js lines 372-471), expressed as the
backing-file contents it leaves behind: when the loaded store is empty it
saves the five seed tweets through `saveStoredTweets`, otherwise it leaves
the store untouched. -/
def initializeSampleTweets (existingTweets : List Tweet) (now : Nat) (writeFails : Bool) :
    List Tweet :=
  if existingTweets.length = 0 then
    (saveStoredTweets existingTweets (sampleTweets now) writeFails).fileAfter.getD existingTweets
  else existingTweets

/-- The JSON payload of a successful upstream `fetch` as consumed by the
handler: the optional `data` list of tweets and the optional `includes.users`
list (`none` models the field being absent). -/
structure UpstreamPayload where
  data : Option (List Tweet)
  includes : Option (List User)
  deriving Repr, DecidableEq

/-- Outcome of the upstream Twitter `fetch` inside the handler: an HTTP-level
success carrying a parsed payload, a non-ok status (`!response.ok`), or an
exception reaching the handler's outer `catch`. -/
inductive FetchOutcome where
  | ok (payload : UpstreamPayload)
  | notOk (status : Nat)
  | threw
  deriving Repr, DecidableEq

/-- Body of a JSON response sent by the handler.  `isStoredData := false`
models the field being absent (falsy) on non-cache responses. -/
structure ResponseBody where
  data : Option (List Tweet)
  includes : Option (List User)
  isStoredData : Bool := false
  deriving Repr, DecidableEq

/-- A response to the end caller: either `res.json(...)` with a body, or
`res.status(500).json({ error: ... })`. -/
inductive Response where
  | json (body : ResponseBody)
  | error500 (msg : String)
  deriving Repr, DecidableEq

/-- The default author injected when a tweet's author cannot be resolved
(server.js lines 266-270 and 276-280). -/
def defaultAuthor : User :=
  { id := "", username := "btc_trader", name := "Bitcoin Trader", profile_image_url := none }

/-- Lookup in the `userMap` built by `forEach (user => userMap[user.id] = user)`:
a later user with the same id overwrites an earlier one. -/
def userMapFind (users : List User) (i : String) : Option User :=
  users.foldl (fun acc u => if u.id = i then some u else acc) none

/-- The tweet post-processing of server.js lines 256-282: attach to every
tweet the author found in `includes.users`, or the default author; when
`includes.users` is absent keep an already-present `author`, defaulting
otherwise. -/
def processTweets (ds : List Tweet) (includes : Option (List User)) : List Tweet :=
  match includes with
  | some users =>
      ds.map (fun t => { t with author := some ((userMapFind users t.author_id).getD defaultAuthor) })
  | none =>
      ds.map (fun t => { t with author := some (t.author.getD defaultAuthor) })

/-- The `/api/twitter/search` handler (server.js lines 195-316), file-backed
variant.  Inputs: the bearer token returned by `getTwitterBearerToken`, the
stored tweets on disk, the shuffled permutation used by
`getRandomStoredTweets`, the upstream fetch outcome, `Date.now()`, and
whether a `fs.writeFile` inside `saveStoredTweets` fails.  Output: the
response sent to the caller and the backing-file contents afterwards. -/
def twitterSearchHandler (token : Option String) (store shuffled : List Tweet)
    (fetch : FetchOutcome) (now : Nat) (writeFails : Bool) : Response × List Tweet :=
  match token with
  | none =>
      let storedTweets := getRandomStoredTweets store shuffled 10
      if 0 < storedTweets.length then
        (.json { data := some storedTweets, includes := some [], isStoredData := true }, store)
      else
        (.error500 ("Failed to authenticate with Twitter"), store)
  | some _ =>
      match fetch with
      | .notOk _ =>
          let storedTweets := getRandomStoredTweets store shuffled 10
          if 0 < storedTweets.length then
            (.json { data := some storedTweets, includes := some [], isStoredData := true }, store)
          else
            (.json { data := some (getMockTweets now), includes := some [], isStoredData := false },
             store)
      | .threw =>
          let storedTweets := getRandomStoredTweets store shuffled 10
          if 0 < storedTweets.length then
            (.json { data := some storedTweets, includes := some [], isStoredData := true }, store)
          else
            (.json { data := some (getMockTweets now), includes := some [], isStoredData := false },
             store)
      | .ok payload =>
          match payload.data with
          | some ds =>
              if 0 < ds.length then
                let processedTweets := processTweets ds payload.includes
                let saved := saveStoredTweets store processedTweets writeFails
                (.json { data := some processedTweets,
                         includes := some (payload.includes.getD []), isStoredData := false },
                 saved.fileAfter.getD store)
              else
                (.json { data := payload.data, includes := payload.includes, isStoredData := false },
                 store)
          | none =>
              (.json { data := payload.data, includes := payload.includes, isStoredData := false },
               store)

/-- Crash-observable contents of the backing file during the direct
`fs.writeFile(TWEETS_DB_FILE, ...)` at server.js line 66: the old contents
before the call, then — because the open truncates the file and the new
contents are written sequentially — every prefix of the new contents. -/
def writeFileCrashStates (oldContents newContents : String) : List String :=
  oldContents :: (List.range (newContents.length + 1)).map
    (fun k => (newContents.toList.take k).asString)

/-! ### Concrete test vectors used by witnesses and counterexamples -/

/-- A small non-mock tweet used as a concrete test input. -/
def tweetA : Tweet :=
  { id := "t1", text := "alpha", created_at := 500, author_id := "u1",
    public_metrics := ⟨0, 0, 0, 0⟩ }

/-- A second, more recent non-mock tweet used as a concrete test input. -/
def tweetB : Tweet :=
  { id := "t2", text := "beta", created_at := 900, author_id := "u2",
    public_metrics := ⟨1, 1, 1, 1⟩ }

/-- A tweet flagged `isMockData`, used as a concrete test input. -/
def tweetMock : Tweet :=
  { id := "mock_9", text := "mock", created_at := 100, author_id := "m1",
    isMockData := true, public_metrics := ⟨0, 0, 0, 0⟩ }

/-! ### Auxiliary notions used to reason about the deduplication map

These are not part of the program; they are specification-side devices for
describing the result of the `Map`-based deduplication. -/

/-- The keys (tweet ids) of a list of tweets, in order. -/
def idsOf (L : List Tweet) : List String := L.map Tweet.id

/-- The last element of `ts` whose id is `i`, if any — i.e. the value a
JavaScript `Map` holds under key `i` after `ts` has been inserted. -/
def lookupLast (ts : List Tweet) (i : String) : Option Tweet :=
  match ts with
  | [] => none
  | b :: bs =>
      match lookupLast bs i with
      | some v => some v
      | none => if b.id = i then some b else none

/-- The value `u` is replaced with after all of `ts` has been inserted over
it: the last element of `ts` sharing its id, or `u` itself. -/
def overrideBy (ts : List Tweet) (u : Tweet) : Tweet :=
  (lookupLast ts u.id).getD u

/-- The entries a `Map` already seeded with the keys `seen` gains when `ts`
is inserted: one entry per first occurrence of a fresh id, holding the last
value inserted under that id. -/
def newPart (ts : List Tweet) (seen : List String) : List Tweet :=
  match ts with
  | [] => []
  | b :: bs =>
      if b.id ∈ seen then newPart bs seen
      else overrideBy bs b :: newPart bs (b.id :: seen)

/-! ### Basic structural lemmas about the merge pipeline -/

/-- Every element produced by one `Map.prototype.set` step is either an old
entry or the tweet just inserted. -/
theorem mem_mapSet {m : List Tweet} {t u : Tweet} (hu : u ∈ mapSet m t) :
    u ∈ m ∨ u = t := by
  unfold mapSet at hu
  split at hu
  · rcases List.mem_map.mp hu with ⟨v, hv, he⟩
    by_cases hid : v.id = t.id
    · right; rw [if_pos hid] at he; exact he.symm
    · left; rw [if_neg hid] at he; exact he ▸ hv
  · rcases List.mem_append.mp hu with h | h
    · exact Or.inl h
    · exact Or.inr (List.mem_singleton.mp h)

/-- Every element of the deduplication map comes from the initial map or from
the inserted batch. -/
theorem mem_mapSetAll {u : Tweet} {ts : List Tweet} :
    ∀ {m : List Tweet}, u ∈ mapSetAll m ts → u ∈ m ∨ u ∈ ts := by
  induction ts with
  | nil => intro m h; exact Or.inl h
  | cons t ts ih =>
      intro m h
      rcases ih (m := mapSet m t) h with h | h
      · rcases mem_mapSet h with h | h
        · exact Or.inl h
        · exact Or.inr (h ▸ List.mem_cons_self t ts)
      · exact Or.inr (List.mem_cons_of_mem t h)

/-- Every element of a merged store comes from the existing store or from the
non-mock part of the incoming batch. -/
theorem mem_mergeStoredTweets {existingTweets tweets : List Tweet} {t : Tweet}
    (ht : t ∈ mergeStoredTweets existingTweets tweets) :
    t ∈ existingTweets ∨ t ∈ tweets.filter isRealTweet := by
  unfold mergeStoredTweets at ht
  have h1 : t ∈ mapSetAll (mapSetAll [] existingTweets) (tweets.filter isRealTweet) :=
    (List.mem_insertionSort createdGe).mp (List.mem_of_mem_take ht)
  rcases mem_mapSetAll h1 with h | h
  · rcases mem_mapSetAll h with h | h
    · cases h
    · exact Or.inl h
  · exact Or.inr h

/-! ### Claim theorems -/

/-- C1, counterexample: with no credential available and an empty store, the
`/api/twitter/search` handler answers `res.status(500).json(...)` (server.js
line 209) — a hard error response, contradicting the claim that the caller
always receives a successful result with content. -/
theorem claim1_counterexample :
    twitterSearchHandler none [] [] .threw 0 false =
      (.error500 ("Failed to authenticate with Twitter"), []) := by decide

/-- C1, amended: the handler returns a hard error exactly when no credential
is available and the cache sample is empty; in every other situation —
credential present (whatever the fetch outcome), or a non-empty cache —
the caller receives a successful JSON response. -/
theorem claim1_amended (token : Option String) (store shuffled : List Tweet)
    (fetch : FetchOutcome) (now : Nat) (writeFails : Bool) :
    (∃ msg, (twitterSearchHandler token store shuffled fetch now writeFails).1
        = .error500 msg) ↔
      token = none ∧ getRandomStoredTweets store shuffled 10 = [] := by
  cases token with
  | none =>
      simp only [twitterSearchHandler]
      by_cases h : 0 < (getRandomStoredTweets store shuffled 10).length
      · simp [h, List.length_pos.mp h]
      · have hnil : getRandomStoredTweets store shuffled 10 = [] :=
          List.length_eq_zero.mp (Nat.eq_zero_of_not_pos h)
        simp [h, hnil]
  | some tok =>
      cases fetch with
      | notOk s =>
          simp only [twitterSearchHandler]
          by_cases h : 0 < (getRandomStoredTweets store shuffled 10).length <;> simp [h]
      | threw =>
          simp only [twitterSearchHandler]
          by_cases h : 0 < (getRandomStoredTweets store shuffled 10).length <;> simp [h]
      | ok payload =>
          simp only [twitterSearchHandler]
          cases hd : payload.data with
          | none => simp [hd]
          | some ds =>
              by_cases h : 0 < ds.length <;> simp [hd, h]

/-- C2, counterexample: when the write fails, `saveStoredTweets` returns `[]`
(the `catch` block, server.js line 75), not the computed in-memory merge
`[tweetA]` — contradicting the claim that the caller still receives the
merged sequence. -/
theorem claim2_counterexample :
    (saveStoredTweets [] [tweetA] true).returned = [] ∧
    mergeStoredTweets [] [tweetA] = [tweetA] := by decide

/-- C2, amended: when the write fails the failure is logged and not
propagated (the function still returns normally), but the caller receives an
empty sequence — the computed in-memory merge is discarded. -/
theorem claim2_amended (existingTweets tweets : List Tweet) :
    saveStoredTweets existingTweets tweets true =
      { returned := [], fileAfter := none, loggedError := true } := rfl

/-- C3, counterexample: the merge writes the backing file with a single
direct `fs.writeFile` (server.js line 66), so the empty file left right
after the open truncates is a crash-observable state that is neither the
previous contents nor the new contents — the write is not atomic. -/
theorem claim3_counterexample :
    "" ∈ writeFileCrashStates ("old-db-contents") ("new-db-contents") ∧
    ("" : String) ≠ "old-db-contents" ∧ ("" : String) ≠ "new-db-contents" := by decide

/-- C3, amended: the merge writes the backing file directly (no
write-to-temp-then-rename), so for any non-trivial old and new contents a
crash mid-write can leave the file in a state that is neither the previous
version nor the new one. -/
theorem claim3_amended (oldContents newContents : String)
    (hold : oldContents ≠ "") (hnew : newContents ≠ "") :
    ∃ s ∈ writeFileCrashStates oldContents newContents,
      s ≠ oldContents ∧ s ≠ newContents := by
  refine ⟨"", ?_, fun h => hold h.symm, fun h => hnew h.symm⟩
  unfold writeFileCrashStates
  refine List.mem_cons_of_mem _ (List.mem_map.mpr ⟨0, ?_, rfl⟩)
  exact List.mem_range.mpr (Nat.succ_pos _)

/-- C3, witness for the amended theorem at concrete file contents. -/
theorem claim3_amended_witness :
    ("old-db" : String) ≠ "" ∧ ("new-db" : String) ≠ "" ∧
    ∃ s ∈ writeFileCrashStates ("old-db") ("new-db"), s ≠ "old-db" ∧ s ≠ "new-db" :=
  ⟨by decide, by decide, claim3_amended ("old-db") ("new-db") (by decide) (by decide)⟩

set_option maxRecDepth 4000 in
/-- C4, counterexample: the seed posts of `initializeSampleTweets` are
sample/placeholder content that never came from a live fetch, yet they carry
no `isMockData` tag and no `mock_` id prefix, so the merge persists them:
after initialization on an empty store, the first seed tweet is in the
store.  This contradicts "only posts obtained from a genuine live fetch are
persisted". -/
theorem claim4_counterexample :
    (sampleTweets 1700000000000).headI ∈ initializeSampleTweets [] 1700000000000 false ∧
    (sampleTweets 1700000000000).headI.isMockData = false := by decide

/-- C4, amended: the merge routine excludes exactly the posts *marked* as
synthetic in the code — `isMockData` set, or an id starting with `mock_` or
`client_mock_` — so if the existing store contains only unmarked posts, the
store after any merge contains only unmarked posts; the unmarked sample
posts seeded by `initializeSampleTweets`, however, do get persisted. -/
theorem claim4_amended (existingTweets tweets : List Tweet)
    (h : ∀ u ∈ existingTweets, isRealTweet u = true) :
    ∀ t ∈ mergeStoredTweets existingTweets tweets, isRealTweet t = true := by
  intro t ht
  rcases mem_mergeStoredTweets ht with h1 | h1
  · exact h t h1
  · exact (List.mem_filter.mp h1).2

/-- C4, witness: merging `[tweetA, tweetMock]` into the empty store keeps
only unmarked tweets; in particular the surviving `tweetA` is unmarked. -/
theorem claim4_amended_witness :
    (∀ u ∈ ([] : List Tweet), isRealTweet u = true) ∧ isRealTweet tweetA = true :=
  ⟨by decide, claim4_amended [] [tweetA, tweetMock] (by decide) tweetA (by decide)⟩

/-- C5: after every merge — from any store state and any batch — the list
written back to the backing file is the computed merge, and it holds at most
`MAX_STORED_TWEETS = 100` entries. -/
theorem claim5_cap (existingTweets tweets : List Tweet) :
    (saveStoredTweets existingTweets tweets false).fileAfter
        = some (mergeStoredTweets existingTweets tweets) ∧
    (mergeStoredTweets existingTweets tweets).length ≤ MAX_STORED_TWEETS := by
  refine ⟨rfl, ?_⟩
  unfold mergeStoredTweets
  rw [List.length_take]
  exact Nat.min_le_left _ _

/-- C6: after every merge the stored sequence is sorted by `created_at`
descending; in particular its first element has a `created_at` greater than
or equal to that of every stored element. -/
theorem claim6_recency (existingTweets tweets : List Tweet) :
    List.Sorted createdGe (mergeStoredTweets existingTweets tweets) ∧
    ∀ t ∈ mergeStoredTweets existingTweets tweets,
      t.created_at ≤ (mergeStoredTweets existingTweets tweets).headI.created_at := by
  have hs : List.Sorted createdGe (mergeStoredTweets existingTweets tweets) := by
    unfold mergeStoredTweets
    exact (List.sorted_insertionSort createdGe _).sublist (List.take_sublist _ _)
  refine ⟨hs, ?_⟩
  cases hm : mergeStoredTweets existingTweets tweets with
  | nil => intro t ht; cases ht
  | cons h rest =>
      intro t ht
      rw [hm] at hs
      rcases List.mem_cons.mp ht with rfl | ht
      · exact le_refl _
      · exact List.rel_of_sorted_cons hs t ht

/-- C8: on a store of size `k`, sampling `count` elements returns exactly
`min count k` elements, each of which is an element of the store (the
shuffle only permutes the store). -/
theorem claim8_sample (storedTweets shuffled : List Tweet) (count : Nat)
    (hperm : shuffled.Perm storedTweets) :
    (getRandomStoredTweets storedTweets shuffled count).length
        = min count storedTweets.length ∧
    ∀ t ∈ getRandomStoredTweets storedTweets shuffled count, t ∈ storedTweets := by
  unfold getRandomStoredTweets
  by_cases h : storedTweets.length = 0
  · simp [h]
  · rw [if_neg h]
    constructor
    · rw [List.length_take, hperm.length_eq]
      exact Nat.min_eq_left (Nat.min_le_right _ _)
    · intro t ht
      exact hperm.mem_iff.mp (List.mem_of_mem_take ht)

/-- C8, witness: sampling 3 from the singleton store `[tweetA]` returns
exactly `min 3 1` elements. -/
theorem claim8_sample_witness :
    ([tweetA].Perm [tweetA]) ∧
    (getRandomStoredTweets [tweetA] [tweetA] 3).length = min 3 ([tweetA] : List Tweet).length :=
  ⟨List.Perm.refl _, (claim8_sample [tweetA] [tweetA] 3 (List.Perm.refl _)).1⟩

/-- C9: `loadStoredTweets` is fail-soft — a missing backing file yields the
empty store silently, and any other read or parse failure yields the empty
store after being reported; no failure is propagated (the function is total
and always returns a list). -/
theorem claim9_load_failsoft :
    loadStoredTweets .enoent = { tweets := [], loggedError := false } ∧
    loadStoredTweets .ioError = { tweets := [], loggedError := true } ∧
    loadStoredTweets .parseError = { tweets := [], loggedError := true } := by decide

/-- C10: when the upstream fetch succeeds at the HTTP level but carries no
posts (`data` absent or empty), the handler forwards the upstream payload
unchanged — no merge into the store, no cache sample, no placeholder — so
the caller can receive a successful response with zero posts. -/
theorem claim10_passthrough (tok : String) (store shuffled : List Tweet)
    (payload : UpstreamPayload) (now : Nat) (writeFails : Bool)
    (h : payload.data = none ∨ payload.data = some []) :
    twitterSearchHandler (some tok) store shuffled (.ok payload) now writeFails =
      (.json { data := payload.data, includes := payload.includes, isStoredData := false },
       store) := by
  rcases h with h | h <;> simp [twitterSearchHandler, h]

/-- C10, witness at a concrete empty upstream payload. -/
theorem claim10_passthrough_witness :
    ((some ([] : List Tweet) = none ∨ some ([] : List Tweet) = some [])) ∧
    twitterSearchHandler (some ("tok")) [tweetA] [tweetA]
        (.ok { data := some [], includes := none }) 5 false =
      (.json { data := some [], includes := none, isStoredData := false }, [tweetA]) :=
  ⟨Or.inr rfl,
   claim10_passthrough ("tok") [tweetA] [tweetA] { data := some [], includes := none } 5 false
     (Or.inr rfl)⟩

/-! ### Lemmas about `lookupLast`, `overrideBy` and `newPart` -/

/-- A successful `lookupLast` returns an element with the requested id. -/
theorem lookupLast_id : ∀ {ts : List Tweet} {i : String} {v : Tweet},
    lookupLast ts i = some v → v.id = i := by
  intro ts
  induction ts with
  | nil => intro i v h; cases h
  | cons b bs ih =>
      intro i v h
      simp only [lookupLast] at h
      cases hb : lookupLast bs i with
      | some w =>
          rw [hb] at h
          injection h with h
          exact h ▸ ih hb
      | none =>
          rw [hb] at h
          by_cases hid : b.id = i
          · rw [if_pos hid] at h; injection h with h; exact h ▸ hid
          · rw [if_neg hid] at h; cases h

/-- `lookupLast` fails exactly when the id does not occur. -/
theorem lookupLast_eq_none : ∀ {ts : List Tweet} {i : String},
    lookupLast ts i = none ↔ i ∉ idsOf ts := by
  intro ts
  induction ts with
  | nil => intro i; simp [lookupLast, idsOf]
  | cons b bs ih =>
      intro i
      simp only [lookupLast, idsOf, List.map_cons, List.mem_cons]
      cases hb : lookupLast bs i with
      | some w =>
          have hmem : i ∈ idsOf bs := by
            by_contra hc
            rw [ih.mpr hc] at hb; cases hb
          simp [idsOf] at hmem
          simp [hmem]
      | none =>
          have hnm : i ∉ idsOf bs := ih.mp hb
          simp only [idsOf] at hnm
          by_cases hid : b.id = i
          · simp [hid, hnm]
          · have hid2 : ¬i = b.id := fun h => hid h.symm
            simp [hid, hnm, hid2]

/-- `overrideBy` preserves the id. -/
theorem overrideBy_id (ts : List Tweet) (u : Tweet) : (overrideBy ts u).id = u.id := by
  unfold overrideBy
  cases h : lookupLast ts u.id with
  | none => rfl
  | some v => exact lookupLast_id h

/-- Overriding twice by the same insertion stream is the same as once. -/
theorem overrideBy_idem (ts : List Tweet) (u : Tweet) :
    overrideBy ts (overrideBy ts u) = overrideBy ts u := by
  cases h : lookupLast ts u.id with
  | none =>
      have hu : overrideBy ts u = u := by unfold overrideBy; rw [h]; rfl
      rw [hu]
      exact hu
  | some v =>
      have hu : overrideBy ts u = v := by unfold overrideBy; rw [h]; rfl
      rw [hu]
      unfold overrideBy
      rw [lookupLast_id h, h]
      rfl

/-- `newPart` only depends on the membership of the seed key set. -/
theorem newPart_congr : ∀ {ts : List Tweet} {seen seen2 : List String},
    (∀ i, i ∈ seen ↔ i ∈ seen2) → newPart ts seen = newPart ts seen2 := by
  intro ts
  induction ts with
  | nil => intro s s2 _; rfl
  | cons b bs ih =>
      intro s s2 h
      simp only [newPart]
      by_cases hb : b.id ∈ s
      · rw [if_pos hb, if_pos ((h b.id).mp hb)]
        exact ih h
      · rw [if_neg hb, if_neg (fun hc => hb ((h b.id).mpr hc))]
        rw [@ih (b.id :: s) (b.id :: s2)
          (fun i => by rw [List.mem_cons, List.mem_cons, h i])]

/-- Elements contributed by `newPart` are the final (`lookupLast`) values of
ids not in the seed set. -/
theorem mem_newPart : ∀ {ts : List Tweet} {seen : List String} {t : Tweet},
    t ∈ newPart ts seen → lookupLast ts t.id = some t ∧ t.id ∉ seen := by
  intro ts
  induction ts with
  | nil => intro s t h; cases h
  | cons b bs ih =>
      intro seen t h
      simp only [newPart] at h
      by_cases hb : b.id ∈ seen
      · rw [if_pos hb] at h
        obtain ⟨h1, h2⟩ := ih h
        exact ⟨by simp only [lookupLast, h1], h2⟩
      · rw [if_neg hb] at h
        rcases List.mem_cons.mp h with rfl | h
        · refine ⟨?_, by rw [overrideBy_id]; exact hb⟩
          simp only [lookupLast, overrideBy_id]
          cases hv : lookupLast bs b.id with
          | some v => simp [overrideBy, hv]
          | none => simp [overrideBy, hv]
        · obtain ⟨h1, h2⟩ := ih h
          exact ⟨by simp only [lookupLast, h1],
                 fun hc => h2 (List.mem_cons_of_mem _ hc)⟩

/-- Every inserted id not in the seed set shows up among the ids of
`newPart`. -/
theorem mem_idsOf_newPart : ∀ {ts : List Tweet} {seen : List String} {i : String},
    i ∈ idsOf ts → i ∉ seen → i ∈ idsOf (newPart ts seen) := by
  intro ts
  induction ts with
  | nil => intro s i h _; cases h
  | cons b bs ih =>
      intro seen i hi hns
      simp only [idsOf, List.map_cons, List.mem_cons] at hi
      simp only [newPart]
      by_cases hb : b.id ∈ seen
      · rw [if_pos hb]
        rcases hi with rfl | hi
        · exact absurd hb hns
        · exact ih hi hns
      · rw [if_neg hb]
        by_cases hib : i = b.id
        · subst hib
          simp only [idsOf, List.map_cons, List.mem_cons]
          exact Or.inl (overrideBy_id bs b).symm
        · rcases hi with rfl | hi
          · exact absurd rfl hib
          · simp only [idsOf, List.map_cons, List.mem_cons]
            refine Or.inr ?_
            have : i ∉ b.id :: seen := by
              simp only [List.mem_cons]
              rintro (rfl | hc)
              · exact hib rfl
              · exact hns hc
            exact ih hi this

/-- On a list with no duplicate ids and fresh relative to the seed set,
`newPart` is the identity. -/
theorem newPart_eq_self : ∀ {L : List Tweet} {seen : List String},
    (idsOf L).Nodup → (∀ b ∈ L, b.id ∉ seen) → newPart L seen = L := by
  intro L
  induction L with
  | nil => intro s _ _; rfl
  | cons b bs ih =>
      intro seen hnod hni
      have hsplit : b.id ∉ List.map Tweet.id bs ∧ (List.map Tweet.id bs).Nodup := by
        have h0 := hnod
        simp only [idsOf, List.map_cons, List.nodup_cons] at h0
        exact h0
      have hnodtl : (idsOf bs).Nodup := hsplit.2
      have hbid : b.id ∉ idsOf bs := hsplit.1
      simp only [newPart]
      rw [if_neg (hni b (List.mem_cons_self b bs))]
      have hov : overrideBy bs b = b := by
        unfold overrideBy; rw [lookupLast_eq_none.mpr hbid]; rfl
      rw [hov, ih hnodtl ?_]
      intro u hu
      simp only [List.mem_cons]
      rintro (huid | hc)
      · exact hbid (huid ▸ List.mem_map.mpr ⟨u, hu, rfl⟩)
      · exact hni u (List.mem_cons_of_mem b hu) hc

/-! ### The deduplication map, characterized -/

/-- When the key is present, `mapSet` overwrites in place. -/
theorem mapSet_pos {m : List Tweet} {b : Tweet} (h : b.id ∈ idsOf m) :
    mapSet m b = m.map (fun u => if u.id = b.id then b else u) := by
  unfold mapSet
  rw [if_pos ?_]
  rcases List.mem_map.mp h with ⟨u, hu, huid⟩
  exact List.any_eq_true.mpr ⟨u, hu, decide_eq_true huid⟩

/-- When the key is absent, `mapSet` appends. -/
theorem mapSet_neg {m : List Tweet} {b : Tweet} (h : b.id ∉ idsOf m) :
    mapSet m b = m ++ [b] := by
  unfold mapSet
  rw [if_neg ?_]
  intro hc
  rcases List.any_eq_true.mp hc with ⟨u, hu, he⟩
  exact h (List.mem_map.mpr ⟨u, hu, of_decide_eq_true he⟩)

/-- In-place overwriting does not change the key sequence. -/
theorem idsOf_overwrite (m : List Tweet) (b : Tweet) :
    idsOf (m.map (fun u => if u.id = b.id then b else u)) = idsOf m := by
  unfold idsOf
  rw [List.map_map]
  refine List.map_congr_left ?_
  intro u _
  by_cases h : u.id = b.id
  · simp [h]
  · simp [h]

/-- One map insertion preserves key distinctness. -/
theorem nodup_idsOf_mapSet {m : List Tweet} (b : Tweet) (h : (idsOf m).Nodup) :
    (idsOf (mapSet m b)).Nodup := by
  by_cases hb : b.id ∈ idsOf m
  · rw [mapSet_pos hb, idsOf_overwrite]; exact h
  · rw [mapSet_neg hb]
    unfold idsOf at *
    rw [List.map_append]
    rw [List.nodup_append]
    exact ⟨h, List.nodup_singleton _, by
      intro a ha hc
      rw [List.mem_singleton.mp hc] at ha
      exact hb ha⟩

/-- Inserting a whole batch preserves key distinctness. -/
theorem nodup_idsOf_mapSetAll : ∀ {ts m : List Tweet},
    (idsOf m).Nodup → (idsOf (mapSetAll m ts)).Nodup := by
  intro ts
  induction ts with
  | nil => intro m h; exact h
  | cons t ts ih => intro m h; exact ih (nodup_idsOf_mapSet t h)

/-- Inserting `b` first and then the stream `bs` overrides a tweet the same
way the whole stream `b :: bs` does. -/
theorem overrideBy_cons (b : Tweet) (bs : List Tweet) (u : Tweet) :
    overrideBy (b :: bs) u = overrideBy bs (if u.id = b.id then b else u) := by
  by_cases hu : u.id = b.id
  · rw [if_pos hu]
    unfold overrideBy
    simp only [lookupLast, hu]
    cases hv : lookupLast bs b.id with
    | some v => rfl
    | none => simp
  · rw [if_neg hu]
    unfold overrideBy
    simp only [lookupLast]
    cases hv : lookupLast bs u.id with
    | some v => rfl
    | none =>
        have : ¬b.id = u.id := fun h => hu h.symm
        simp [this]

/-- Main characterization of the deduplication map: inserting the stream
`ts` into a map `m` with distinct keys overwrites each existing entry with
the last same-id element of `ts` (if any) and appends, in order of first
occurrence, a `newPart` entry for every fresh id. -/
theorem mapSetAll_decomp : ∀ {ts m : List Tweet}, (idsOf m).Nodup →
    mapSetAll m ts = m.map (overrideBy ts) ++ newPart ts (idsOf m) := by
  intro ts
  induction ts with
  | nil =>
      intro m _
      have hov : ∀ u : Tweet, overrideBy [] u = u := fun u => rfl
      have hmap : List.map (overrideBy []) m = m := by
        rw [List.map_congr_left (fun u _ => hov u)]
        exact List.map_id m
      simp [mapSetAll, newPart, hmap]
  | cons b bs ih =>
      intro m hm
      have hstep : mapSetAll m (b :: bs) = mapSetAll (mapSet m b) bs := rfl
      by_cases hb : b.id ∈ idsOf m
      · rw [hstep, mapSet_pos hb]
        have hnod2 : (idsOf (m.map (fun u => if u.id = b.id then b else u))).Nodup := by
          rw [idsOf_overwrite]; exact hm
        rw [ih hnod2, idsOf_overwrite]
        have hmap : (m.map (fun u => if u.id = b.id then b else u)).map (overrideBy bs)
            = m.map (overrideBy (b :: bs)) := by
          rw [List.map_map]
          refine List.map_congr_left ?_
          intro u _
          exact (overrideBy_cons b bs u).symm
        rw [hmap]
        have hnp : newPart (b :: bs) (idsOf m) = newPart bs (idsOf m) := by
          simp only [newPart]; rw [if_pos hb]
        rw [hnp]
      · rw [hstep, mapSet_neg hb]
        have hnod2 : (idsOf (m ++ [b])).Nodup := by
          unfold idsOf at *
          rw [List.map_append, List.nodup_append]
          exact ⟨hm, List.nodup_singleton _, by
            intro a ha hc
            rw [List.mem_singleton.mp hc] at ha
            exact hb ha⟩
        rw [ih hnod2]
        have hids : idsOf (m ++ [b]) = idsOf m ++ [b.id] := by
          unfold idsOf; rw [List.map_append]; rfl
        rw [hids]
        have hmap2 : (m ++ [b]).map (overrideBy bs)
            = m.map (overrideBy (b :: bs)) ++ [overrideBy bs b] := by
          rw [List.map_append]
          congr 1
          refine List.map_congr_left ?_
          intro u hu
          have huid : ¬u.id = b.id := by
            intro hc
            exact hb (hc ▸ List.mem_map.mpr ⟨u, hu, rfl⟩)
          rw [overrideBy_cons b bs u, if_neg huid]
        rw [hmap2]
        have hnp : newPart (b :: bs) (idsOf m) = overrideBy bs b :: newPart bs (b.id :: idsOf m) := by
          simp only [newPart]; rw [if_neg hb]
        have hseen : newPart bs (idsOf m ++ [b.id]) = newPart bs (b.id :: idsOf m) :=
          newPart_congr (fun i => by
            rw [List.mem_append, List.mem_singleton, List.mem_cons, or_comm])
        rw [hnp, hseen, List.append_assoc]
        rfl

/-- Each value held by the deduplication map is already the final value for
its id: re-inserting the same stream cannot change it. -/
theorem overrideBy_eq_self_of_mem {ts m : List Tweet} (hm : (idsOf m).Nodup)
    {u : Tweet} (hu : u ∈ mapSetAll m ts) : overrideBy ts u = u := by
  rw [mapSetAll_decomp hm] at hu
  rcases List.mem_append.mp hu with h | h
  · rcases List.mem_map.mp h with ⟨v, _, rfl⟩
    exact overrideBy_idem ts v
  · obtain ⟨h1, _⟩ := mem_newPart h
    unfold overrideBy
    rw [h1]
    rfl

/-- An id occurs among `idsOf L` exactly when some element carries it. -/
theorem mem_idsOf {L : List Tweet} {i : String} :
    i ∈ idsOf L ↔ ∃ u ∈ L, u.id = i := by
  unfold idsOf
  exact List.mem_map

/-- Every id inserted into the deduplication map is a key of the result. -/
theorem mem_idsOf_mapSetAll {ts m : List Tweet} (hm : (idsOf m).Nodup)
    {i : String} (hi : i ∈ idsOf ts) : i ∈ idsOf (mapSetAll m ts) := by
  rw [mapSetAll_decomp hm]
  unfold idsOf
  rw [List.map_append, List.mem_append]
  by_cases hb : i ∈ idsOf m
  · left
    have heq : (m.map (overrideBy ts)).map Tweet.id = m.map Tweet.id := by
      rw [List.map_map]
      exact List.map_congr_left (fun u _ => overrideBy_id ts u)
    rw [heq]
    exact hb
  · right
    exact mem_idsOf_newPart hi hb

/-! ### Stability of the sort across an already-sorted dominating prefix -/

/-- Inserting an element that dominates a whole list puts it in front. -/
theorem orderedInsert_forall {x : Tweet} {l : List Tweet}
    (h : ∀ u ∈ l, createdGe x u) :
    List.orderedInsert createdGe x l = x :: l := by
  cases l with
  | nil => rfl
  | cons y ys => exact List.orderedInsert_of_le createdGe ys (h y (List.mem_cons_self y ys))

/-- Sorting a sorted prefix followed by a dominated suffix sorts only the
suffix in place. -/
theorem insertionSort_append : ∀ {l1 l2 : List Tweet},
    List.Sorted createdGe l1 → (∀ a ∈ l1, ∀ b ∈ l2, createdGe a b) →
    List.insertionSort createdGe (l1 ++ l2) = l1 ++ List.insertionSort createdGe l2 := by
  intro l1
  induction l1 with
  | nil => intro l2 _ _; rfl
  | cons a l1 ih =>
      intro l2 h1 h12
      rw [List.cons_append]
      show List.orderedInsert createdGe a (List.insertionSort createdGe (l1 ++ l2))
          = a :: l1 ++ List.insertionSort createdGe l2
      have hfa : ∀ u ∈ l1 ++ List.insertionSort createdGe l2, createdGe a u := by
        intro u hu
        rcases List.mem_append.mp hu with hu | hu
        · exact List.rel_of_sorted_cons h1 u hu
        · exact h12 a (List.mem_cons_self a l1) u ((List.mem_insertionSort createdGe).mp hu)
      rw [ih h1.of_cons (fun u hu b hb => h12 u (List.mem_cons_of_mem a hu) b hb),
        orderedInsert_forall hfa, List.cons_append]

/-- Key distinctness transfers along a permutation. -/
theorem nodup_idsOf_of_perm {l l2 : List Tweet} (hp : l.Perm l2)
    (h : (idsOf l2).Nodup) : (idsOf l).Nodup :=
  ((hp.map Tweet.id).nodup_iff).mpr h

/-- Key distinctness survives truncation. -/
theorem nodup_idsOf_take (n : Nat) {l : List Tweet} (h : (idsOf l).Nodup) :
    (idsOf (l.take n)).Nodup :=
  List.Nodup.sublist (List.Sublist.map Tweet.id (List.take_sublist n l)) h

/-- The merge pipeline — dedupe by id, stable-sort by `created_at`
descending, truncate to the cap — is idempotent: running it again over its
own output and the same (already filtered) batch reproduces the output. -/
theorem merge_pipeline_idem (E Bf : List Tweet) :
    (List.insertionSort createdGe (mapSetAll (mapSetAll []
        ((List.insertionSort createdGe (mapSetAll (mapSetAll [] E) Bf)).take
          MAX_STORED_TWEETS)) Bf)).take MAX_STORED_TWEETS
      = (List.insertionSort createdGe (mapSetAll (mapSetAll [] E) Bf)).take
          MAX_STORED_TWEETS := by
  set M1 := mapSetAll (mapSetAll [] E) Bf with hM1
  set L1 := List.insertionSort createdGe M1 with hL1
  set S1 := L1.take MAX_STORED_TWEETS with hS1
  have hndnil : (idsOf ([] : List Tweet)).Nodup := by simp [idsOf]
  have hndD : (idsOf (mapSetAll [] E)).Nodup := nodup_idsOf_mapSetAll hndnil
  have hndM1 : (idsOf M1).Nodup := nodup_idsOf_mapSetAll hndD
  have hpL1 : L1.Perm M1 := List.perm_insertionSort createdGe M1
  have hndL1 : (idsOf L1).Nodup := nodup_idsOf_of_perm hpL1 hndM1
  have hndS1 : (idsOf S1).Nodup := nodup_idsOf_take _ hndL1
  have hsortL1 : List.Sorted createdGe L1 := List.sorted_insertionSort createdGe M1
  have hsortS1 : List.Sorted createdGe S1 :=
    List.Pairwise.sublist (List.take_sublist _ _) hsortL1
  have hA : mapSetAll [] S1 = S1 := by
    rw [mapSetAll_decomp hndnil]
    simp only [List.map_nil, List.nil_append]
    refine newPart_eq_self hndS1 ?_
    intro b _
    simp [idsOf]
  have hC : S1.map (overrideBy Bf) = S1 := by
    have hpt : ∀ u ∈ S1, overrideBy Bf u = u := by
      intro u hu
      exact overrideBy_eq_self_of_mem hndD (hpL1.mem_iff.mp (List.mem_of_mem_take hu))
    rw [List.map_congr_left hpt]
    exact List.map_id S1
  have hTid : ∀ t ∈ newPart Bf (idsOf S1), t.id ∉ idsOf S1 :=
    fun t ht => (mem_newPart ht).2
  have hTmem : ∀ t ∈ newPart Bf (idsOf S1), t ∈ M1 := by
    intro t ht
    obtain ⟨hlk, _⟩ := mem_newPart ht
    have hidB : t.id ∈ idsOf Bf := by
      by_contra hc
      rw [lookupLast_eq_none.mpr hc] at hlk
      cases hlk
    obtain ⟨u, hu, huid⟩ := mem_idsOf.mp (mem_idsOf_mapSetAll hndD hidB)
    have hself := overrideBy_eq_self_of_mem hndD hu
    unfold overrideBy at hself
    rw [huid, hlk] at hself
    have htu : t = u := by simpa using hself
    exact htu ▸ hu
  have hTle : ∀ t ∈ newPart Bf (idsOf S1), ∀ s ∈ S1, createdGe s t := by
    intro t ht s hs
    have htL1 : t ∈ L1 := hpL1.mem_iff.mpr (hTmem t ht)
    have htnS1 : t ∉ S1 := fun hc => hTid t ht (mem_idsOf.mpr ⟨t, hc, rfl⟩)
    have htd : t ∈ L1.drop MAX_STORED_TWEETS := by
      rcases List.mem_append.mp
          ((List.take_append_drop MAX_STORED_TWEETS L1).symm ▸ htL1) with h | h
      · exact absurd h htnS1
      · exact h
    have hPW : List.Pairwise createdGe (S1 ++ L1.drop MAX_STORED_TWEETS) := by
      rw [hS1, List.take_append_drop]
      exact hsortL1
    exact (List.pairwise_append.mp hPW).2.2 s hs t htd
  rw [hA, mapSetAll_decomp hndS1, hC]
  rw [insertionSort_append hsortS1 (fun a ha b hb => hTle b hb a ha)]
  by_cases hlen : MAX_STORED_TWEETS ≤ L1.length
  · have hlS1 : S1.length = MAX_STORED_TWEETS := by
      rw [hS1, List.length_take]
      exact Nat.min_eq_left hlen
    rw [List.take_append_of_le_length (le_of_eq hlS1.symm)]
    rw [← hlS1]
    exact List.take_length S1
  · have hlt : L1.length < MAX_STORED_TWEETS := Nat.lt_of_not_le hlen
    have hS1L1 : S1 = L1 := List.take_of_length_le (le_of_lt hlt)
    have hTnil : newPart Bf (idsOf S1) = [] := by
      rw [List.eq_nil_iff_forall_not_mem]
      intro t ht
      have h2 : t.id ∈ idsOf L1 :=
        mem_idsOf.mpr ⟨t, hpL1.mem_iff.mpr (hTmem t ht), rfl⟩
      exact (hS1L1 ▸ hTid t ht) h2
    rw [hTnil]
    show (S1 ++ List.insertionSort createdGe []).take MAX_STORED_TWEETS = S1
    rw [show List.insertionSort createdGe [] = [] from rfl, List.append_nil]
    refine List.take_of_length_le ?_
    rw [hS1L1]
    exact le_of_lt hlt

/-- C7: merging the same batch of non-synthetic posts twice, starting from
any store state, yields a store identical to merging it once — same ids, same
ordering (the second merge literally returns the first merge's output). -/
theorem claim7_idempotent (existingTweets tweets : List Tweet)
    (h : ∀ t ∈ tweets, isRealTweet t = true) :
    mergeStoredTweets (mergeStoredTweets existingTweets tweets) tweets
      = mergeStoredTweets existingTweets tweets := by
  simp only [mergeStoredTweets]
  exact merge_pipeline_idem existingTweets (tweets.filter isRealTweet)

/-- C7, witness: re-merging the concrete non-mock batch `[tweetA, tweetB]`
into its own merge result changes nothing. -/
theorem claim7_idempotent_witness :
    (∀ t ∈ [tweetA, tweetB], isRealTweet t = true) ∧
    mergeStoredTweets (mergeStoredTweets [] [tweetA, tweetB]) [tweetA, tweetB]
      = mergeStoredTweets [] [tweetA, tweetB] :=
  ⟨by decide, claim7_idempotent [] [tweetA, tweetB] (by decide)⟩

end NewsLimitless
